import Mathlib

/-!
Shallow embedding of the deduplication engine in `Dinwiddie_deduper.py`.

Conventions of the embedding:
* a SAM line is a `String`; Python `line.split('\t')` is modelled by
  `pySplitTab`, `line.split()` (whitespace runs) by `pySplitWs`;
* Python exceptions (`IndexError` from out-of-range indexing, `ValueError`
  from a failing `int(...)`) are modelled by `Option`, `none` meaning the
  exception propagates and aborts the streaming pass;
* Python `int(...)` is modelled on the nonnegative decimal digit strings
  that occur in SAM numeric fields (`pyNat`), failing on anything else;
* Python string comparison `<` (code-point lexicographic) is modelled by
  the executable `pyStrLt`; the script compares MAPQ values as raw strings;
* the Python dict `place` (insertion ordered, at most one entry per key)
  is modelled as an association list: new keys are appended at the end,
  replacement keeps the entry position (`aupdate`), exactly like CPython;
* the identity test `line.BC is ""` in `inter_sam` is modelled as equality
  with `""` (CPython interns the empty string, so the test behaves as `==`
  for the strings produced here);
* the logging call in the unusable branch of `bit_check` (line 163)
  references the global `COUNT`, which is defined nowhere in the module:
  every unmapped or secondary record therefore raises `NameError` and
  aborts the pass, which the embedding models as `bit_check` returning
  `none`.
-/

namespace Deduper

/-- Model of Python `str.split(sep)` for a one-character separator, on the
character list of the string: `"a\tb".split('\t') = ["a","b"]`, keeping
empty groups, and `"".split(sep) = [""]`. -/
def splitOnChar (sep : Char) : List Char → List (List Char)
  | [] => [[]]
  | c :: cs =>
    match splitOnChar sep cs with
    | [] => [[]]
    | g :: gs => if c = sep then [] :: g :: gs else (c :: g) :: gs

/-- Same splitting with a character predicate; used for Python `str.split()`
which splits on whitespace. -/
def splitOnP (p : Char → Bool) : List Char → List (List Char)
  | [] => [[]]
  | c :: cs =>
    match splitOnP p cs with
    | [] => [[]]
    | g :: gs => if p c then [] :: g :: gs else (c :: g) :: gs

/-- Python `line.split('\t')`. -/
def pySplitTab (s : String) : List String := (splitOnChar '\t' s.data).map String.mk

/-- Python `tok.split(':')`. -/
def pySplitColon (s : String) : List String := (splitOnChar ':' s.data).map String.mk

/-- Python `line.split()`: split on whitespace runs, dropping empty groups. -/
def pySplitWs (s : String) : List String :=
  ((splitOnP Char.isWhitespace s.data).filter (fun g => !g.isEmpty)).map String.mk

/-- Python `line.split('\t')[i]`: `none` models the `IndexError`. -/
def pyField (line : String) (i : Nat) : Option String := (pySplitTab line).get? i

/-- Python `int(s)` on the nonnegative decimal strings appearing in SAM
numeric fields; `none` models the `ValueError` on any other input. -/
def pyNat (s : String) : Option Nat :=
  if !s.data.isEmpty && s.data.all Char.isDigit then
    some (s.data.foldl (fun a c => a * 10 + (c.toNat - 48)) 0)
  else none

/-- Python `<` on strings (code-point lexicographic), on character lists. -/
def pyStrLtL : List Char → List Char → Bool
  | [], [] => false
  | [], _ :: _ => true
  | _ :: _, [] => false
  | a :: as, b :: bs => if a = b then pyStrLtL as bs else decide (a < b)

/-- Python `<` on strings, as used by `place[key][1] < line.qual_score`. -/
def pyStrLt (a b : String) : Bool := pyStrLtL a.data b.data

/-- Lines 95-103, `sam_info.soft_check`: inspects `align[1]` and `align[2]`
of the CIGAR string; `int(align[0])` when `align[1]=='S'`,
`int(align[:2])` when `align[2]=='S'`, `0` otherwise. The result is `none`
when Python raises: `IndexError` for a CIGAR of length below 2, or of
length exactly 2 with second character not `'S'`; `ValueError` when the
sliced prefix is not numeric. -/
def soft_check (align : String) : Option Nat :=
  match align.data with
  | c0 :: c1 :: rest =>
    if c1 = 'S' then pyNat (String.mk [c0])
    else
      match rest with
      | c2 :: _ => if c2 = 'S' then pyNat (String.mk [c0, c1]) else some 0
      | [] => none
  | _ => none

/-- Lines 115-123, `sam_info.start_pos`: `int(fields[3])` minus the soft
clip amount when the latter is positive. -/
def start_pos (line : String) : Option Int := do
  let s3 ← pyField line 3
  let raw ← pyNat s3
  let align ← pyField line 5
  let soft ← soft_check align
  pure (if 0 < soft then (raw : Int) - (soft : Int) else (raw : Int))

/-- Lines 152-166, `sam_info.bit_check`: decodes the flag field. On a mapped
primary record (`flag & 4 != 4 and flag & 256 != 256`) the code sets
`umap = ""` (modelled as `usable = true`) and returns the strand from bit
16. On an unmapped or secondary record the `else` branch at line 163
formats its log message with `COUNT`, a global that is defined nowhere in
the module, so Python raises `NameError` inside `bit_check` and the record
constructor aborts before the record can be counted: modelled as `none`. -/
def bit_check (line : String) : Option (String × Bool) := do
  let s1 ← pyField line 1
  let flag ← pyNat s1
  if flag &&& 4 == 4 || flag &&& 256 == 256 then none
  else pure (if flag &&& 16 == 16 then "-" else "+", true)

/-- The configuration flags of the run (argparse options `-p`, `-u`, `-q`
plus the known-umi list loaded from `STL96.txt` when `-u` is given). -/
structure Config where
  pe : Bool
  umi : Bool
  qual : Bool
  umiList : List String
deriving DecidableEq, Repr

/-- Lines 130-132 of `sam_info.barcode_get`: the raw extracted tag, the
final `:`-separated component of the first whitespace token of the line. -/
def extractTag (line : String) : Option String :=
  ((pySplitWs line).head?).map (fun tok => (pySplitColon tok).getLastD "")

/-- Lines 125-150, `sam_info.barcode_get`: the extracted tag, replaced by
`""` when umi validation is on and the tag is not in the known list. -/
def barcode_get (cfg : Config) (line : String) : Option String :=
  (extractTag line).map (fun BC =>
    if cfg.umi then (if cfg.umiList.contains BC then BC else "") else BC)

/-- The attributes computed by `sam_info.__init__` (lines 82-94). -/
structure SamRec where
  line : String
  contig : String
  start_pos : Int
  qual_score : String
  strand : String
  usable : Bool
  BC : String
deriving DecidableEq, Repr

/-- Lines 82-94, `sam_info.__init__`, in source order: contig (field 2),
soft-clip-adjusted start position, quality (field 4, kept as a raw
string), strand and usability from the flag field, barcode. `none` models
an exception escaping the constructor. -/
def sam_info (cfg : Config) (line : String) : Option SamRec := do
  let contig ← pyField line 2
  let sp ← start_pos line
  let q ← pyField line 4
  let su ← bit_check line
  let bc ← barcode_get cfg line
  pure ⟨line, contig, sp, q, su.1, su.2, bc⟩

/-- Line 205: `key = (line.BC, line.start_pos, line.strand[0], line.contig)`. -/
abbrev DedupKey := String × Int × String × String

/-- Lookup in the ordered association list modelling the dict `place`. -/
def alookup : List (DedupKey × String × String) → DedupKey → Option (String × String)
  | [], _ => none
  | (k, l, q) :: rest, key => if k = key then some (l, q) else alookup rest key

/-- In-place replacement of the value at a key, keeping the entry position,
exactly like assignment to an existing key of a CPython dict. -/
def aupdate : List (DedupKey × String × String) → DedupKey → String → String →
    List (DedupKey × String × String)
  | [], _, _, _ => []
  | (k, l, q) :: rest, key, nl, nq =>
    if k = key then (k, nl, nq) :: rest else (k, l, q) :: aupdate rest key nl nq

/-- The mutable run state of `inter_sam`: the global counters `NR`,
`UnMap`, `badBc`, the dict `place`, and the header lines already copied
to the output file. -/
structure RunState where
  NR : Nat
  UnMap : Nat
  badBc : Nat
  place : List (DedupKey × String × String)
  headers : List String
deriving DecidableEq, Repr

/-- The state at stream start (globals initialised at lines 317-323). -/
def initState : RunState := ⟨0, 0, 0, [], []⟩

/-- Python `line.startswith('@')`. -/
def isHeader (s : String) : Bool :=
  match s.data with
  | '@' :: _ => true
  | _ => false

/-- Lines 194-231, the body of the `for line in sam` loop of `inter_sam`,
acting on one line: header lines are copied through; otherwise `NR` is
incremented and the line is parsed (`none` models the exception aborting
the pass; in particular every unmapped or secondary record raises
`NameError` inside `bit_check`). The `line.strand[1] is None` branch of
lines 207-209 incrementing `UnMap` is kept for fidelity to the text, but
no parsed record reaches it since `bit_check` raises first. Records with
an empty barcode are counted in `badBc`; the rest go through the dict
logic: on a key hit with `-q` set, replace when the stored quality string
is strictly smaller than the new one, else keep; without `-q`, always
keep; on a key miss, insert at the end. -/
def inter_step (cfg : Config) (st : RunState) (ln : String) : Option RunState :=
  if isHeader ln then some { st with headers := st.headers ++ [ln] }
  else
    match sam_info cfg ln with
    | none => none
    | some r =>
      if !r.usable then some { st with NR := st.NR + 1, UnMap := st.UnMap + 1 }
      else if r.BC = "" then some { st with NR := st.NR + 1, badBc := st.badBc + 1 }
      else
        match alookup st.place (r.BC, r.start_pos, r.strand, r.contig) with
        | some v =>
          if cfg.qual then
            if pyStrLt v.2 r.qual_score then
              some { st with NR := st.NR + 1, place := aupdate st.place (r.BC, r.start_pos, r.strand, r.contig) r.line r.qual_score }
            else some { st with NR := st.NR + 1 }
          else some { st with NR := st.NR + 1 }
        | none => some { st with NR := st.NR + 1, place := st.place ++ [((r.BC, r.start_pos, r.strand, r.contig), r.line, r.qual_score)] }

/-- The loop of `inter_sam` from a given state over the remaining lines. -/
def inter_from (cfg : Config) : RunState → List String → Option RunState
  | st, [] => some st
  | st, ln :: rest =>
    match inter_step cfg st ln with
    | none => none
    | some st' => inter_from cfg st' rest

/-- Lines 178-233, `inter_sam`: one pass over the stream from the initial
state; `none` when an exception aborts the pass. -/
def inter_sam (cfg : Config) (lines : List String) : Option RunState :=
  inter_from cfg initState lines

/-- Classification of one line as an accepted record: not a header, parses,
usable, non-empty barcode. Returns its dedup key together with the stored
value `(line, qual_score)`. Acceptance of a line does not depend on the
run state, which is what makes the per-key semantics below well defined. -/
def accepted (cfg : Config) (ln : String) : Option (DedupKey × String × String) :=
  if isHeader ln then none
  else
    match sam_info cfg ln with
    | none => none
    | some r =>
      if !r.usable then none
      else if r.BC = "" then none
      else some ((r.BC, r.start_pos, r.strand, r.contig), r.line, r.qual_score)

/-- The colliding records of a key: the stream-ordered `(line, qual)` of
the accepted records whose dedup key is `key`. -/
def collide (cfg : Config) (lines : List String) (key : DedupKey) : List (String × String) :=
  (lines.filterMap (accepted cfg)).filterMap
    (fun e => if e.1 = key then some e.2 else none)

/-- One quality-mode comparison: keep the challenger only when its quality
string is strictly greater (Python string `<`), ties keep the holder. -/
def best (x y : String × String) : String × String :=
  if pyStrLt x.2 y.2 then y else x

/-- The effect of one colliding record on the entry at its key. -/
def upd (qual : Bool) : Option (String × String) → String × String → Option (String × String)
  | none, y => some y
  | some x, y => some (if qual then best x y else x)

/-- The per-key reduction realised by the loop: first-seen wins without
`-q`; best-quality-first-wins with `-q`. -/
def collapse (qual : Bool) (l : List (String × String)) : Option (String × String) :=
  l.foldl (upd qual) none

/-- The effect of one accepted record on the entry stored at a key. -/
def updKey (qual : Bool) (o : Option (DedupKey × String × String)) (k' : DedupKey)
    (cur : Option (String × String)) : Option (String × String) :=
  match o with
  | some klq => if klq.1 = k' then upd qual cur klq.2 else cur
  | none => cur

/-- Number of entries of the dict model carrying a given key. -/
def countKey (pl : List (DedupKey × String × String)) (key : DedupKey) : Nat :=
  pl.countP (fun e => decide (e.1 = key))

/-- Lines 241-248, `dedup_writer.single_write`: the output file contents,
header lines (written during the pass) followed by the retained lines in
dict order. -/
def single_write (st : RunState) : List String :=
  st.headers ++ st.place.map (fun e => e.2.1)

/-- Line 264: the cross-reference test for a candidate pair, comparing
field 3 of the first line with field 7 of the second (0-based; the SAM
`POS` and `PNEXT` columns); `none` models the `IndexError` on a line with
too few fields. -/
def pairCheck (a b : String × String) : Option Bool := do
  let x ← (pySplitTab a.1).get? 3
  let y ← (pySplitTab b.1).get? 7
  pure (decide (x = y))

/-- Lines 259-272, the scan of `pair_write`: two values at a time; on a
successful cross-reference both lines are emitted and the scan advances by
two; on failure it advances by one; it stops when fewer than two values
remain, dropping a final unpaired value. The fuel argument only makes the
recursion structural; `pair_scan` passes the list length, and since every
step consumes at least one element after at most one unit of fuel, the
fuel is never exhausted before the stop condition. -/
def pair_scan_go : Nat → List (String × String) → Option (List String)
  | _, [] => some []
  | _, [_] => some []
  | 0, _ :: _ :: _ => some []
  | fuel + 1, a :: b :: rest =>
    match pairCheck a b with
    | none => none
    | some true => (pair_scan_go fuel rest).map (fun out => a.1 :: b.1 :: out)
    | some false => pair_scan_go fuel (b :: rest)

/-- The scan of `pair_write` on a value list. -/
def pair_scan (l : List (String × String)) : Option (List String) :=
  pair_scan_go l.length l

/-- Stable insertion used to model Python `sorted` (a stable sort). -/
def insertLe {α : Type} (le : α → α → Bool) (x : α) : List α → List α
  | [] => [x]
  | y :: ys => if le x y then x :: y :: ys else y :: insertLe le x ys

/-- Stable sort modelling Python `sorted` with a boolean `le`. -/
def sortLe {α : Type} (le : α → α → Bool) : List α → List α
  | [] => []
  | x :: xs => insertLe le x (sortLe le xs)

/-- Python tuple comparison on the `(line, qual)` values of `place`. -/
def pyPairLt (x y : String × String) : Bool :=
  pyStrLt x.1 y.1 || (x.1 == y.1 && pyStrLt x.2 y.2)

/-- Python `sorted(list(place.values()))` at line 258. -/
def sortedVals (pl : List (DedupKey × String × String)) : List (String × String) :=
  sortLe (fun x y => !pyPairLt y x) (pl.map (fun e => e.2))

/-- Lines 250-272, `dedup_writer.pair_write`: emitted alignment lines of
the paired-end reconciler (`none` when the scan raises). -/
def pair_write (pl : List (DedupKey × String × String)) : Option (List String) :=
  pair_scan (sortedVals pl)

/-- The summary counters logged at lines 343: total processed, unmapped or
secondary, unidentified barcodes, duplicates removed, reads retained. -/
def summary (st : RunState) : Nat × Nat × Nat × Nat × Nat :=
  (st.NR, st.UnMap, st.badBc, st.NR - st.UnMap - st.place.length, st.place.length)

/-- Concatenation of the lines of a list of accepted pairs, two per pair. -/
def emitPairs (ps : List ((String × String) × (String × String))) : List String :=
  ps.foldr (fun p acc => p.1.1 :: p.2.1 :: acc) []

/-! Concrete configurations and input lines used to instantiate the theorems
on executable runs. -/

def cfgQ : Config := ⟨false, false, true, []⟩

def cfgPlain : Config := ⟨false, false, false, []⟩

def cfgUmi : Config := ⟨false, true, false, ["AACCCG"]⟩

def lq30 : String := "r1:AAGCTC\t0\tchr1\t500\t30\t71M\t=\t700\t71\tACGT\tFFFF\n"

def lq40 : String := "r2:AAGCTC\t0\tchr1\t500\t40\t71M\t=\t700\t71\tACGT\tFFFF\n"

def lu600 : String := "r3:AAGCTC\t0\tchr1\t600\t60\t71M\t=\t800\t71\tACGT\tFFFF\n"

def lunmap : String := "r4:AAGCTC\t4\tchr1\t700\t0\t71M\t=\t900\t71\tACGT\tFFFF\n"

def l256 : String := "r5:AAGCTC\t256\tchr1\t700\t0\t71M\t=\t900\t71\tACGT\tFFFF\n"

def lq9 : String := "r2:AAGCTC\t0\tchr1\t500\t9\t71M\t=\t700\t71\tACGT\tFFFF\n"

def lclip : String := "r1:AAGCTC\t0\tchr1\t100\t30\t5S66M\t=\t700\t71\tACGT\tFFFF\n"

def l5M : String := "r1:AAGCTC\t0\tchr1\t100\t30\t5M\t=\t700\t71\tACGT\tFFFF\n"

def lstar : String := "r4:AAGCTC\t4\tchr1\t100\t0\t*\t=\t700\t71\tACGT\tFFFF\n"

def lAACCCG : String := "r1:AACCCG\t0\tchr1\t500\t30\t71M\t=\t700\t71\tACGT\tFFFF\n"

def pe1 : String × String := ("a1\tx\tx\t500\tx\tx\tx\t700\tx\n", "30")

def pe2 : String × String := ("a2\tx\tx\t700\tx\tx\tx\t500\tx\n", "40")

/-! Order theory of the Python string comparison `pyStrLt`. -/

theorem pyStrLtL_irrefl : ∀ l : List Char, pyStrLtL l l = false
  | [] => rfl
  | a :: as => by simp [pyStrLtL, pyStrLtL_irrefl as]

theorem pyStrLtL_asymm : ∀ l m : List Char, pyStrLtL l m = true → pyStrLtL m l = false
  | [], [], h => by simp [pyStrLtL] at h
  | [], _ :: _, _ => rfl
  | _ :: _, [], h => by simp [pyStrLtL] at h
  | a :: as, b :: bs, h => by
    by_cases hab : a = b
    · subst hab
      simp only [pyStrLtL, if_pos rfl] at h ⊢
      exact pyStrLtL_asymm as bs h
    · have hba : ¬ b = a := fun e => hab e.symm
      simp only [pyStrLtL, if_neg hab, decide_eq_true_eq] at h
      simp only [pyStrLtL, if_neg hba, decide_eq_false_iff_not]
      exact lt_asymm h

theorem pyStrLtL_trans : ∀ l m n : List Char,
    pyStrLtL l m = true → pyStrLtL m n = true → pyStrLtL l n = true
  | [], [], _, h1, _ => by simp [pyStrLtL] at h1
  | [], _ :: _, [], _, h2 => by simp [pyStrLtL] at h2
  | [], _ :: _, _ :: _, _, _ => rfl
  | _ :: _, [], _, h1, _ => by simp [pyStrLtL] at h1
  | _ :: _, _ :: _, [], _, h2 => by simp [pyStrLtL] at h2
  | a :: as, b :: bs, c :: cs, h1, h2 => by
    by_cases hab : a = b <;> by_cases hbc : b = c
    · subst hab; subst hbc
      simp only [pyStrLtL, if_pos rfl] at h1 h2 ⊢
      exact pyStrLtL_trans as bs cs h1 h2
    · subst hab
      simp only [pyStrLtL, if_pos rfl] at h1
      simp only [pyStrLtL, if_neg hbc, decide_eq_true_eq] at h2 ⊢
      exact h2
    · subst hbc
      simp only [pyStrLtL, if_neg hab, decide_eq_true_eq] at h1 ⊢
      exact h1
    · simp only [pyStrLtL, if_neg hab, decide_eq_true_eq] at h1
      simp only [pyStrLtL, if_neg hbc, decide_eq_true_eq] at h2
      have hac : a < c := lt_trans h1 h2
      simp only [pyStrLtL, if_neg (ne_of_lt hac), decide_eq_true_eq]
      exact hac

theorem pyStrLtL_connex : ∀ l m : List Char,
    pyStrLtL l m = false → pyStrLtL m l = false → l = m
  | [], [], _, _ => rfl
  | [], _ :: _, h1, _ => by simp [pyStrLtL] at h1
  | _ :: _, [], _, h2 => by simp [pyStrLtL] at h2
  | a :: as, b :: bs, h1, h2 => by
    by_cases hab : a = b
    · subst hab
      simp only [pyStrLtL, if_pos rfl] at h1 h2
      rw [pyStrLtL_connex as bs h1 h2]
    · have hba : ¬ b = a := fun e => hab e.symm
      simp only [pyStrLtL, if_neg hab, decide_eq_false_iff_not] at h1
      simp only [pyStrLtL, if_neg hba, decide_eq_false_iff_not] at h2
      exact absurd (le_antisymm (le_of_not_lt h2) (le_of_not_lt h1)) hab

theorem pyStrLt_irrefl (a : String) : pyStrLt a a = false :=
  pyStrLtL_irrefl a.data

theorem pyStrLt_asymm {a b : String} (h : pyStrLt a b = true) : pyStrLt b a = false :=
  pyStrLtL_asymm a.data b.data h

theorem pyStrLt_trans {a b c : String} (h1 : pyStrLt a b = true) (h2 : pyStrLt b c = true) :
    pyStrLt a c = true :=
  pyStrLtL_trans a.data b.data c.data h1 h2

theorem pyStrLt_connex {a b : String} (h1 : pyStrLt a b = false) (h2 : pyStrLt b a = false) :
    a = b := by
  have := pyStrLtL_connex a.data b.data h1 h2
  cases a; cases b; exact congrArg String.mk this

theorem pyStrLt_total (a b : String) :
    pyStrLt a b = true ∨ pyStrLt b a = true ∨ a = b := by
  cases h1 : pyStrLt a b
  · cases h2 : pyStrLt b a
    · exact Or.inr (Or.inr (pyStrLt_connex h1 h2))
    · exact Or.inr (Or.inl rfl)
  · exact Or.inl rfl

theorem pyStrLt_nlt_trans {a b c : String}
    (h1 : pyStrLt b a = false) (h2 : pyStrLt c b = false) : pyStrLt c a = false := by
  cases h : pyStrLt c a
  · rfl
  · rcases pyStrLt_total b c with hbc | hcb | hbc
    · have := pyStrLt_trans hbc h
      simp [this] at h1
    · exact absurd hcb (by simp [h2])
    · subst hbc; exact absurd h (by simp [h1])

theorem pyStrLt_lt_of_lt_of_nlt {x z r : String}
    (h1 : pyStrLt x z = true) (h2 : pyStrLt r z = false) : pyStrLt x r = true := by
  rcases pyStrLt_total x r with h | h | h
  · exact h
  · exact absurd (pyStrLt_trans h h1) (by simp [h2])
  · subst h; exact absurd h1 (by simp [h2])

theorem pyStrLt_lt_of_nlt_of_lt {x z r : String}
    (h1 : pyStrLt x z = false) (h2 : pyStrLt x r = true) : pyStrLt z r = true := by
  rcases pyStrLt_total z x with h | h | h
  · exact pyStrLt_trans h h2
  · exact absurd h (by simp [h1])
  · subst h; exact h2

/-! Lemmas on the association-list model of the dict `place`. -/


theorem alookup_aupdate_some (pl : List (DedupKey × String × String)) (key : DedupKey)
    (nl nq : String) (v : String × String) (h : alookup pl key = some v) :
    alookup (aupdate pl key nl nq) key = some (nl, nq) := by
  induction pl with
  | nil => simp [alookup] at h
  | cons e rest ih =>
    obtain ⟨k, l, q⟩ := e
    by_cases hk : k = key
    · simp [aupdate, alookup, hk]
    · simp only [alookup, if_neg hk] at h
      simp [aupdate, alookup, hk, ih h]

theorem aupdate_of_none (pl : List (DedupKey × String × String)) (key : DedupKey)
    (nl nq : String) (h : alookup pl key = none) :
    aupdate pl key nl nq = pl := by
  induction pl with
  | nil => rfl
  | cons e rest ih =>
    obtain ⟨k, l, q⟩ := e
    by_cases hk : k = key
    · simp [alookup, hk] at h
    · simp only [alookup, if_neg hk] at h
      simp [aupdate, hk, ih h]

theorem alookup_aupdate_ne (pl : List (DedupKey × String × String)) (key : DedupKey)
    (nl nq : String) (k' : DedupKey) (hne : ¬ k' = key) :
    alookup (aupdate pl key nl nq) k' = alookup pl k' := by
  induction pl with
  | nil => rfl
  | cons e rest ih =>
    obtain ⟨k, l, q⟩ := e
    by_cases hk : k = key
    · subst hk
      have hkk : ¬ k = k' := fun e => hne e.symm
      simp [aupdate, alookup, hkk]
    · simp [aupdate, alookup, hk, ih]

theorem alookup_append (pl : List (DedupKey × String × String)) (k : DedupKey)
    (nl nq : String) (k' : DedupKey) :
    alookup (pl ++ [(k, nl, nq)]) k' =
      if (alookup pl k').isSome then alookup pl k'
      else if k = k' then some (nl, nq) else none := by
  induction pl with
  | nil => simp [alookup]
  | cons e rest ih =>
    obtain ⟨k0, l, q⟩ := e
    by_cases hk : k0 = k'
    · simp [alookup, hk]
    · simp [alookup, hk, ih]

theorem countKey_aupdate (pl : List (DedupKey × String × String)) (key : DedupKey)
    (nl nq : String) (k' : DedupKey) :
    countKey (aupdate pl key nl nq) k' = countKey pl k' := by
  induction pl with
  | nil => rfl
  | cons e rest ih =>
    obtain ⟨k, l, q⟩ := e
    by_cases hk : k = key
    · subst hk; simp [aupdate, countKey, List.countP_cons]
    · simp only [aupdate, if_neg hk, countKey, List.countP_cons] at ih ⊢
      omega

theorem countKey_append (pl : List (DedupKey × String × String)) (k : DedupKey)
    (nl nq : String) (k' : DedupKey) :
    countKey (pl ++ [(k, nl, nq)]) k' = countKey pl k' + (if k = k' then 1 else 0) := by
  simp only [countKey, List.countP_append, List.countP_cons, List.countP_nil]
  by_cases hk : k = k' <;> simp [hk]

/-! Lemmas on the per-key reduction `collapse`. -/

theorem foldl_upd_false (l : List (String × String)) (x : String × String) :
    l.foldl (upd false) (some x) = some x := by
  induction l generalizing x with
  | nil => rfl
  | cons y ys ih => simpa [upd] using ih x

theorem collapse_false (l : List (String × String)) : collapse false l = l.head? := by
  cases l with
  | nil => rfl
  | cons x xs =>
    show List.foldl (upd false) (upd false none x) xs = some x
    rw [show upd false none x = some x from rfl, foldl_upd_false]

theorem foldl_upd_true (l : List (String × String)) (x : String × String) :
    l.foldl (upd true) (some x) = some (l.foldl best x) := by
  induction l generalizing x with
  | nil => rfl
  | cons y ys ih => simpa [upd] using ih (best x y)

theorem collapse_true (x : String × String) (xs : List (String × String)) :
    collapse true (x :: xs) = some (xs.foldl best x) := by
  show List.foldl (upd true) (upd true none x) xs = _
  rw [show upd true none x = some x from rfl, foldl_upd_true]

theorem foldl_best_max (xs : List (String × String)) (x : String × String) :
    ∀ y ∈ x :: xs, pyStrLt (xs.foldl best x).2 y.2 = false := by
  induction xs generalizing x with
  | nil =>
    intro y hy
    simp only [List.mem_cons, List.not_mem_nil, or_false] at hy
    subst hy
    simp [pyStrLt_irrefl]
  | cons z zs ih =>
    intro y hy
    simp only [List.foldl_cons]
    have hbx : pyStrLt (best x z).2 x.2 = false := by
      by_cases h : pyStrLt x.2 z.2 = true
      · simp [best, h, pyStrLt_asymm h]
      · simp only [Bool.not_eq_true] at h
        simp [best, h, pyStrLt_irrefl]
    have hbz : pyStrLt (best x z).2 z.2 = false := by
      by_cases h : pyStrLt x.2 z.2 = true
      · simp [best, h, pyStrLt_irrefl]
      · simp only [Bool.not_eq_true] at h
        simp [best, h]
    have hres : pyStrLt (zs.foldl best (best x z)).2 (best x z).2 = false :=
      ih (best x z) (best x z) (by simp)
    simp only [List.mem_cons] at hy
    rcases hy with hy | hy | hy
    · subst hy; exact pyStrLt_nlt_trans hbx hres
    · subst hy; exact pyStrLt_nlt_trans hbz hres
    · exact ih (best x z) y (by simp [hy])

theorem foldl_best_first (xs : List (String × String)) (x : String × String) :
    ∃ l1 l2, x :: xs = l1 ++ (xs.foldl best x) :: l2 ∧
      ∀ y ∈ l1, pyStrLt y.2 (xs.foldl best x).2 = true := by
  induction xs generalizing x with
  | nil => exact ⟨[], [], rfl, by simp⟩
  | cons z zs ih =>
    simp only [List.foldl_cons]
    by_cases hxz : pyStrLt x.2 z.2 = true
    · have hb : best x z = z := by simp [best, hxz]
      obtain ⟨l1, l2, hdec, hstr⟩ := ih (best x z)
      refine ⟨x :: l1, l2, ?_, ?_⟩
      · rw [List.cons_append, ← hdec, hb]
      · intro y hy
        simp only [List.mem_cons] at hy
        rcases hy with hy | hy
        · rw [hy]
          have hzr : pyStrLt (zs.foldl best (best x z)).2 z.2 = false :=
            foldl_best_max zs (best x z) z (by simp [hb])
          exact pyStrLt_lt_of_lt_of_nlt hxz hzr
        · exact hstr y hy
    · simp only [Bool.not_eq_true] at hxz
      have hb : best x z = x := by simp [best, hxz]
      obtain ⟨l1, l2, hdec, hstr⟩ := ih (best x z)
      rw [hb] at hdec hstr
      cases l1 with
      | nil =>
        simp only [List.nil_append, List.cons.injEq] at hdec
        obtain ⟨h1, h2⟩ := hdec
        refine ⟨[], z :: zs, ?_, by simp⟩
        rw [hb, ← h1, List.nil_append]
      | cons w t =>
        simp only [List.cons_append, List.cons.injEq] at hdec
        obtain ⟨hwx, hzs⟩ := hdec
        subst hwx
        have hxr : pyStrLt x.2 (zs.foldl best x).2 = true := hstr x (by simp)
        refine ⟨x :: z :: t, l2, ?_, ?_⟩
        · rw [hb]
          simp only [List.cons_append]
          conv_lhs => rw [hzs]
        · intro y hy
          rw [hb]
          simp only [List.mem_cons] at hy
          rcases hy with hy | hy | hy
          · rw [hy]; exact hxr
          · rw [hy]; exact pyStrLt_lt_of_nlt_of_lt hxz hxr
          · exact hstr y (by simp [hy])



/-! Elimination lemmas for the parsing chain and the loop body. -/

theorem sam_info_elim (cfg : Config) (ln : String) (r : SamRec)
    (h : sam_info cfg ln = some r) :
    r.line = ln ∧ pyField ln 2 = some r.contig ∧ start_pos ln = some r.start_pos ∧
    pyField ln 4 = some r.qual_score ∧ bit_check ln = some (r.strand, r.usable) ∧
    barcode_get cfg ln = some r.BC := by
  simp only [sam_info, Option.bind_eq_bind', Option.bind_eq_some', Option.pure_def,
    Option.some.injEq] at h
  obtain ⟨contig, hc, sp, hsp, q, hq, su, hsu, bc, hbc, hr⟩ := h
  subst hr
  exact ⟨rfl, hc, hsp, hq, by simpa using hsu, hbc⟩

theorem barcode_get_elim (cfg : Config) (ln : String) (bc : String)
    (h : barcode_get cfg ln = some bc) :
    ∃ tag, extractTag ln = some tag ∧
      bc = (if cfg.umi then (if cfg.umiList.contains tag then tag else "") else tag) := by
  simp only [barcode_get, Option.map_eq_some'] at h
  obtain ⟨tag, ht, hbc⟩ := h
  exact ⟨tag, ht, hbc.symm⟩

theorem inter_step_shape (cfg : Config) (st : RunState) (ln : String) (st' : RunState)
    (h : inter_step cfg st ln = some st') :
    (isHeader ln = true ∧ st' = { st with headers := st.headers ++ [ln] }) ∨
    (isHeader ln = false ∧ ∃ r, sam_info cfg ln = some r ∧
      ((r.usable = false ∧ st' = { st with NR := st.NR + 1, UnMap := st.UnMap + 1 }) ∨
       (r.usable = true ∧ r.BC = "" ∧
         st' = { st with NR := st.NR + 1, badBc := st.badBc + 1 }) ∨
       (r.usable = true ∧ ¬ r.BC = "" ∧
         accepted cfg ln =
           some ((r.BC, r.start_pos, r.strand, r.contig), r.line, r.qual_score) ∧
         ((∃ v, alookup st.place (r.BC, r.start_pos, r.strand, r.contig) = some v ∧
             cfg.qual = true ∧ pyStrLt v.2 r.qual_score = true ∧
             st' = { st with NR := st.NR + 1, place := (aupdate st.place (r.BC, r.start_pos, r.strand, r.contig) r.line r.qual_score) }) ∨
          (∃ v, alookup st.place (r.BC, r.start_pos, r.strand, r.contig) = some v ∧
             ¬ (cfg.qual = true ∧ pyStrLt v.2 r.qual_score = true) ∧
             st' = { st with NR := st.NR + 1 }) ∨
          (alookup st.place (r.BC, r.start_pos, r.strand, r.contig) = none ∧
             st' = { st with NR := st.NR + 1, place := (st.place ++ [((r.BC, r.start_pos, r.strand, r.contig), r.line, r.qual_score)]) }))))) := by
  unfold inter_step at h
  by_cases hh : isHeader ln = true
  · rw [if_pos hh] at h
    exact Or.inl ⟨hh, (Option.some.inj h).symm⟩
  · rw [if_neg hh] at h
    have hh' : isHeader ln = false := by simpa using hh
    refine Or.inr ⟨hh', ?_⟩
    cases hp : sam_info cfg ln with
    | none =>
      simp only [hp] at h
      exact Option.noConfusion h
    | some r =>
      simp only [hp] at h
      refine ⟨r, rfl, ?_⟩
      by_cases hu : r.usable = true
      · rw [if_neg (by simp [hu])] at h
        by_cases hbc : r.BC = ""
        · rw [if_pos hbc] at h
          exact Or.inr (Or.inl ⟨hu, hbc, (Option.some.inj h).symm⟩)
        · rw [if_neg hbc] at h
          have hacc : accepted cfg ln =
              some ((r.BC, r.start_pos, r.strand, r.contig), r.line, r.qual_score) := by
            simp [accepted, hh', hp, hu, hbc]
          refine Or.inr (Or.inr ⟨hu, hbc, hacc, ?_⟩)
          cases hl : alookup st.place (r.BC, r.start_pos, r.strand, r.contig) with
          | none =>
            simp only [hl] at h
            exact Or.inr (Or.inr ⟨rfl, (Option.some.inj h).symm⟩)
          | some v =>
            simp only [hl] at h
            by_cases hq : cfg.qual = true
            · rw [if_pos hq] at h
              by_cases hcmp : pyStrLt v.2 r.qual_score = true
              · rw [if_pos hcmp] at h
                exact Or.inl ⟨v, rfl, hq, hcmp, (Option.some.inj h).symm⟩
              · rw [if_neg hcmp] at h
                exact Or.inr (Or.inl ⟨v, rfl,
                  fun hand => hcmp hand.2, (Option.some.inj h).symm⟩)
            · rw [if_neg hq] at h
              exact Or.inr (Or.inl ⟨v, rfl,
                fun hand => hq hand.1, (Option.some.inj h).symm⟩)
      · have hu' : r.usable = false := by simpa using hu
        rw [if_pos (by simp [hu'] : (!r.usable) = true)] at h
        exact Or.inl ⟨hu', (Option.some.inj h).symm⟩

theorem inter_step_alookup (cfg : Config) (st : RunState) (ln : String) (st' : RunState)
    (h : inter_step cfg st ln = some st') (k' : DedupKey) :
    alookup st'.place k' = updKey cfg.qual (accepted cfg ln) k' (alookup st.place k') := by
  rcases inter_step_shape cfg st ln st' h with ⟨hh, rfl⟩ | ⟨hh, r, hp, hcase⟩
  · simp [accepted, hh, updKey]
  · rcases hcase with ⟨hu, rfl⟩ | ⟨hu, hbc, rfl⟩ | ⟨hu, hbc, hacc, hsub⟩
    · simp [accepted, hh, hp, hu, updKey]
    · simp [accepted, hh, hp, hu, hbc, updKey]
    · rw [hacc]
      rcases hsub with ⟨v, hl, hq, hcmp, rfl⟩ | ⟨v, hl, hnq, rfl⟩ | ⟨hl, rfl⟩
      · show alookup (aupdate st.place (r.BC, r.start_pos, r.strand, r.contig)
            r.line r.qual_score) k' = _
        by_cases hk : (r.BC, r.start_pos, r.strand, r.contig) = k'
        · rw [← hk]
          rw [alookup_aupdate_some st.place _ r.line r.qual_score v hl]
          simp [updKey, upd, best, hq, hcmp, hl]
        · rw [alookup_aupdate_ne st.place _ r.line r.qual_score k' (fun e => hk e.symm)]
          simp [updKey, hk]
      · show alookup st.place k' = _
        by_cases hk : (r.BC, r.start_pos, r.strand, r.contig) = k'
        · rw [← hk, hl]
          simp only [updKey, if_pos rfl, upd]
          cases hqb : cfg.qual
          · simp
          · have hcmp2 : pyStrLt v.2 r.qual_score = false := by
              cases hc : pyStrLt v.2 r.qual_score
              · rfl
              · exact absurd ⟨hqb, hc⟩ hnq
            simp [best, hcmp2]
        · simp [updKey, hk]
      · show alookup (st.place ++
            [((r.BC, r.start_pos, r.strand, r.contig), r.line, r.qual_score)]) k' = _
        rw [alookup_append]
        by_cases hk : (r.BC, r.start_pos, r.strand, r.contig) = k'
        · rw [← hk, hl]
          simp [updKey, upd]
        · simp only [updKey, if_neg hk]
          cases hcur : alookup st.place k' <;> simp [hk, hcur]


theorem collide_cons (cfg : Config) (ln : String) (rest : List String) (k' : DedupKey) :
    collide cfg (ln :: rest) k' =
      (match accepted cfg ln with
       | some klq => if klq.1 = k' then [klq.2] else []
       | none => []) ++ collide cfg rest k' := by
  unfold collide
  rw [List.filterMap_cons]
  cases ha : accepted cfg ln with
  | none => simp
  | some klq =>
    rw [List.filterMap_cons]
    by_cases hk : klq.1 = k' <;> simp [hk]

theorem foldl_updKey (qual : Bool) (o : Option (DedupKey × String × String)) (k' : DedupKey)
    (cur : Option (String × String)) :
    (match o with
     | some klq => if klq.1 = k' then [klq.2] else []
     | none => ([] : List (String × String))).foldl (upd qual) cur = updKey qual o k' cur := by
  cases o with
  | none => rfl
  | some klq => by_cases hk : klq.1 = k' <;> simp [updKey, hk]

theorem inter_from_alookup (cfg : Config) (lines : List String) :
    ∀ st st', inter_from cfg st lines = some st' → ∀ k',
      alookup st'.place k' =
        (collide cfg lines k').foldl (upd cfg.qual) (alookup st.place k') := by
  induction lines with
  | nil =>
    intro st st' h k'
    obtain rfl := Option.some.inj h
    simp [collide]
  | cons ln rest ih =>
    intro st st' h k'
    simp only [inter_from] at h
    cases hstep : inter_step cfg st ln with
    | none => rw [hstep] at h; exact Option.noConfusion h
    | some st1 =>
      rw [hstep] at h
      rw [collide_cons, List.foldl_append, foldl_updKey]
      rw [← inter_step_alookup cfg st ln st1 hstep k']
      exact ih st1 st' h k'

theorem inter_sam_alookup (cfg : Config) (lines : List String) (st : RunState)
    (h : inter_sam cfg lines = some st) (k' : DedupKey) :
    alookup st.place k' = collapse cfg.qual (collide cfg lines k') := by
  have hmain := inter_from_alookup cfg lines initState st h k'
  simpa [initState, alookup, collapse] using hmain

/-! Invariants of the run state along the pass. -/

theorem inter_step_countKey (cfg : Config) (st : RunState) (ln : String) (st' : RunState)
    (h : inter_step cfg st ln = some st')
    (hwf : ∀ k, countKey st.place k = if (alookup st.place k).isSome then 1 else 0) :
    ∀ k, countKey st'.place k = if (alookup st'.place k).isSome then 1 else 0 := by
  rcases inter_step_shape cfg st ln st' h with ⟨hh, rfl⟩ | ⟨hh, r, hp, hcase⟩
  · exact hwf
  · rcases hcase with ⟨hu, rfl⟩ | ⟨hu, hbc, rfl⟩ | ⟨hu, hbc, hacc, hsub⟩
    · exact hwf
    · exact hwf
    · rcases hsub with ⟨v, hl, hq, hcmp, rfl⟩ | ⟨v, hl, hnq, rfl⟩ | ⟨hl, rfl⟩
      · intro k
        show countKey (aupdate st.place (r.BC, r.start_pos, r.strand, r.contig)
            r.line r.qual_score) k = _
        rw [countKey_aupdate]
        by_cases hk : (r.BC, r.start_pos, r.strand, r.contig) = k
        · rw [← hk]
          rw [alookup_aupdate_some st.place _ r.line r.qual_score v hl]
          have hw := hwf (r.BC, r.start_pos, r.strand, r.contig)
          rw [hl] at hw
          simpa using hw
        · rw [alookup_aupdate_ne st.place _ r.line r.qual_score k (fun e => hk e.symm)]
          exact hwf k
      · exact hwf
      · intro k
        show countKey (st.place ++
            [((r.BC, r.start_pos, r.strand, r.contig), r.line, r.qual_score)]) k = _
        rw [countKey_append, alookup_append]
        by_cases hk : (r.BC, r.start_pos, r.strand, r.contig) = k
        · rw [← hk]
          simp only [hl, Option.isSome_none, Bool.false_eq_true, if_false, if_pos rfl]
          have := hwf (r.BC, r.start_pos, r.strand, r.contig)
          rw [hl] at this
          simpa using this
        · simp only [if_neg hk]
          cases hcur : alookup st.place k <;>
            simpa [hcur] using hwf k

theorem inter_from_countKey (cfg : Config) (lines : List String) :
    ∀ st st', inter_from cfg st lines = some st' →
      (∀ k, countKey st.place k = if (alookup st.place k).isSome then 1 else 0) →
      ∀ k, countKey st'.place k = if (alookup st'.place k).isSome then 1 else 0 := by
  induction lines with
  | nil =>
    intro st st' h hwf
    obtain rfl := Option.some.inj h
    exact hwf
  | cons ln rest ih =>
    intro st st' h hwf
    simp only [inter_from] at h
    cases hstep : inter_step cfg st ln with
    | none => rw [hstep] at h; exact Option.noConfusion h
    | some st1 =>
      rw [hstep] at h
      exact ih st1 st' h (inter_step_countKey cfg st ln st1 hstep hwf)

theorem inter_sam_countKey (cfg : Config) (lines : List String) (st : RunState)
    (h : inter_sam cfg lines = some st) (k : DedupKey) :
    countKey st.place k = if (alookup st.place k).isSome then 1 else 0 := by
  refine inter_from_countKey cfg lines initState st h ?_ k
  intro k0
  simp [initState, countKey, alookup]

/-! Specification of the paired-end scan. -/

theorem emitPairs_length (ps : List ((String × String) × (String × String))) :
    (emitPairs ps).length = 2 * ps.length := by
  induction ps with
  | nil => rfl
  | cons p rest ih =>
    simp only [emitPairs, List.foldr_cons, List.length_cons] at ih ⊢
    omega

theorem pair_scan_go_fuel_succ (fuel : Nat) :
    ∀ l : List (String × String), l.length ≤ fuel + 1 →
      pair_scan_go fuel l = pair_scan_go (fuel + 1) l := by
  induction fuel with
  | zero =>
    intro l hl
    match l with
    | [] => rfl
    | [a] => rfl
    | a :: b :: rest => simp at hl
  | succ n ih =>
    intro l hl
    match l with
    | [] => rfl
    | [a] => rfl
    | a :: b :: rest =>
      show (match pairCheck a b with
            | none => none
            | some true => (pair_scan_go n rest).map (fun out => a.1 :: b.1 :: out)
            | some false => pair_scan_go n (b :: rest)) =
          (match pairCheck a b with
            | none => none
            | some true => (pair_scan_go (n + 1) rest).map (fun out => a.1 :: b.1 :: out)
            | some false => pair_scan_go (n + 1) (b :: rest))
      cases pairCheck a b with
      | none => rfl
      | some ok =>
        cases ok with
        | true =>
          rw [ih rest (by simp at hl; omega)]
        | false =>
          rw [ih (b :: rest) (by simp at hl ⊢; omega)]

theorem pair_scan_go_fuel_stable (l : List (String × String)) (k : Nat) :
    pair_scan_go (l.length + k) l = pair_scan_go l.length l := by
  induction k with
  | zero => rfl
  | succ n ih =>
    rw [← ih]
    exact (pair_scan_go_fuel_succ (l.length + n) l (by omega)).symm

theorem pair_scan_go_spec (fuel : Nat) :
    ∀ l out, pair_scan_go fuel l = some out →
      ∃ ps, out = emitPairs ps ∧ ∀ p ∈ ps, pairCheck p.1 p.2 = some true := by
  induction fuel with
  | zero =>
    intro l out h
    match l with
    | [] =>
      obtain rfl := Option.some.inj h
      exact ⟨[], rfl, by simp⟩
    | [a] =>
      obtain rfl := Option.some.inj h
      exact ⟨[], rfl, by simp⟩
    | a :: b :: rest =>
      obtain rfl := Option.some.inj h
      exact ⟨[], rfl, by simp⟩
  | succ n ih =>
    intro l out h
    match l with
    | [] =>
      obtain rfl := Option.some.inj h
      exact ⟨[], rfl, by simp⟩
    | [a] =>
      obtain rfl := Option.some.inj h
      exact ⟨[], rfl, by simp⟩
    | a :: b :: rest =>
      rw [pair_scan_go] at h
      cases hc : pairCheck a b with
      | none => rw [hc] at h; exact Option.noConfusion h
      | some ok =>
        rw [hc] at h
        cases ok with
        | true =>
          simp only [Option.map_eq_some'] at h
          obtain ⟨out', hrec, rfl⟩ := h
          obtain ⟨ps, hps, hchk⟩ := ih rest out' hrec
          refine ⟨(a, b) :: ps, ?_, ?_⟩
          · simp [emitPairs, hps]
          · intro p hp
            rcases List.mem_cons.mp hp with hp | hp
            · rw [hp]; exact hc
            · exact hchk p hp
        | false =>
          exact ih (b :: rest) out h


/-! Claim theorems. -/

/-- C1: with quality-based retention enabled (`-q`), for every completed run
and every key, the single retained record's quality string is greater than
or equal (in the Python string order used by the code) to the quality of
every record colliding on that key, and when several colliding records
attain the maximum the retained one is the earliest-seen in stream order:
the collision list decomposes as a prefix of strictly smaller qualities,
then the retained record. Colliding records are the usable, tag-accepted
records carrying the key, the ones the Dedup Index logic processes. -/
theorem C1_quality_retention (cfg : Config) (lines : List String) (st : RunState)
    (key : DedupKey) (l q : String)
    (hq : cfg.qual = true)
    (h : inter_sam cfg lines = some st)
    (hk : alookup st.place key = some (l, q)) :
    (∀ v ∈ collide cfg lines key, pyStrLt q v.2 = false) ∧
    ∃ l1 l2, collide cfg lines key = l1 ++ (l, q) :: l2 ∧
      ∀ v ∈ l1, pyStrLt v.2 q = true := by
  have hmain := inter_sam_alookup cfg lines st h key
  rw [hk, hq] at hmain
  cases hcol : collide cfg lines key with
  | nil =>
    rw [hcol] at hmain
    simp [collapse] at hmain
  | cons x xs =>
    rw [hcol, collapse_true] at hmain
    have hfold : xs.foldl best x = (l, q) := (Option.some.inj hmain).symm
    constructor
    · intro v hv
      have hmax := foldl_best_max xs x v hv
      rw [hfold] at hmax
      exact hmax
    · obtain ⟨l1, l2, hdec, hstr⟩ := foldl_best_first xs x
      rw [hfold] at hdec hstr
      exact ⟨l1, l2, hdec, hstr⟩

theorem C1_quality_retention_witness :
    (∀ v ∈ collide cfgQ [lq30, lq40] ("AAGCTC", (500 : Int), "+", "chr1"),
        pyStrLt "40" v.2 = false) ∧
    ∃ l1 l2, collide cfgQ [lq30, lq40] ("AAGCTC", (500 : Int), "+", "chr1") =
        l1 ++ (lq40, "40") :: l2 ∧ ∀ v ∈ l1, pyStrLt v.2 "40" = true :=
  C1_quality_retention cfgQ [lq30, lq40]
    ⟨2, 0, 0, [(("AAGCTC", (500 : Int), "+", "chr1"), lq40, "40")], []⟩
    ("AAGCTC", (500 : Int), "+", "chr1") lq40 "40" rfl (by decide) (by decide)

/-- C2, amended: on every run the pass completes, with quality-based
retention disabled the entry retained at a key is exactly the first
colliding record in stream order (all later key-colliding records are
discarded), and the Dedup Index holds exactly one entry for a key with at
least one colliding record and none otherwise. Colliding records are the
usable, tag-accepted records carrying the key. The restriction to
completed runs is forced by the counterexample below: a stream that also
contains an unmapped or secondary record aborts with `NameError` (the
undefined `COUNT` at line 163) and retains nothing, so the original
"for every input stream" phrasing fails. -/
theorem C2_first_seen (cfg : Config) (lines : List String) (st : RunState)
    (hq : cfg.qual = false) (h : inter_sam cfg lines = some st) (key : DedupKey) :
    alookup st.place key = (collide cfg lines key).head? ∧
    countKey st.place key = (if collide cfg lines key = [] then 0 else 1) := by
  have hmain := inter_sam_alookup cfg lines st h key
  rw [hq, collapse_false] at hmain
  refine ⟨hmain, ?_⟩
  have hcnt := inter_sam_countKey cfg lines st h key
  rw [hcnt, hmain]
  cases hcol : collide cfg lines key <;> simp

theorem C2_first_seen_witness :
    alookup (⟨2, 0, 0, [(("AAGCTC", (500 : Int), "+", "chr1"), lq30, "30")], []⟩ :
        RunState).place ("AAGCTC", (500 : Int), "+", "chr1") =
      (collide cfgPlain [lq30, lq40] ("AAGCTC", (500 : Int), "+", "chr1")).head? ∧
    countKey (⟨2, 0, 0, [(("AAGCTC", (500 : Int), "+", "chr1"), lq30, "30")], []⟩ :
        RunState).place ("AAGCTC", (500 : Int), "+", "chr1") =
      (if collide cfgPlain [lq30, lq40] ("AAGCTC", (500 : Int), "+", "chr1") = []
       then 0 else 1) :=
  C2_first_seen cfgPlain [lq30, lq40]
    ⟨2, 0, 0, [(("AAGCTC", (500 : Int), "+", "chr1"), lq30, "30")], []⟩
    rfl (by decide) ("AAGCTC", (500 : Int), "+", "chr1")

/-- C2, counterexample to the original claim: `lq30` and `lq40` are two
usable records with the identical dedup key (AAGCTC, 500, +, chr1), yet
the stream that also contains the unmapped record `lunmap` does not
collapse them to exactly one retained record: the pass aborts with the
`NameError` of line 163 at `lunmap` (modelled as `none`) and retains
nothing at all. -/
theorem C2_first_seen_counterexample :
    sam_info cfgPlain lq30 =
      some ⟨lq30, "chr1", 500, "30", "+", true, "AAGCTC"⟩ ∧
    sam_info cfgPlain lq40 =
      some ⟨lq40, "chr1", 500, "40", "+", true, "AAGCTC"⟩ ∧
    inter_sam cfgPlain [lq30, lq40, lunmap] = none := by
  exact ⟨by decide, by decide, by decide⟩

/-- C3: the specified end-to-end scenario does not happen on the code: the
run dies at its unmapped record. On the four-record stream (qualities 30
and 40 on the shared key (AAGCTC, 500, +, chr1) with quality mode on, one
record at the distinct key (AAGCTC, 600, +, chr1), one unmapped record)
the program aborts with `NameError` (the undefined `COUNT` at line 163)
inside `bit_check` of the unmapped record, so it never retains anything
and never logs the summary, against the claimed 2 retained records and
counters processed=4, unmapped=1, duplicatesRemoved=1. Without the
unmapped record the quality-based collapse itself behaves as specified:
the three usable records alone retain exactly the quality-40 record and
the unique-key record. -/
theorem C3_end_to_end_crash :
    bit_check lunmap = none ∧
    inter_sam cfgQ [lq30, lq40, lu600, lunmap] = none ∧
    inter_sam cfgQ [lq30, lq40, lu600] =
      some ⟨3, 0, 0,
        [(("AAGCTC", (500 : Int), "+", "chr1"), lq40, "40"),
         (("AAGCTC", (600 : Int), "+", "chr1"), lu600, "60")], []⟩ := by
  exact ⟨by decide, by decide, by decide⟩

/-- C4: whenever `soft_check` detects a leading soft clip of length k in the
CIGAR field, the adjusted position is the raw position minus k (in
particular raw 100 with clip 5 gives 95), and a record whose CIGAR yields
no leading soft clip (clip amount 0) keeps its raw position unchanged. -/
theorem C4_clip_adjustment :
    (∀ (line s3 cigar : String) (raw k : Nat),
      pyField line 3 = some s3 → pyNat s3 = some raw →
      pyField line 5 = some cigar → soft_check cigar = some k →
      start_pos line = some ((raw : Int) - (k : Int))) ∧
    start_pos lclip = some 95 ∧
    (∀ (line s3 cigar : String) (raw : Nat),
      pyField line 3 = some s3 → pyNat s3 = some raw →
      pyField line 5 = some cigar → soft_check cigar = some 0 →
      start_pos line = some (raw : Int)) := by
  have main : ∀ (line s3 cigar : String) (raw k : Nat),
      pyField line 3 = some s3 → pyNat s3 = some raw →
      pyField line 5 = some cigar → soft_check cigar = some k →
      start_pos line = some ((raw : Int) - (k : Int)) := by
    intro line s3 cigar raw k h3 hraw h5 hk
    simp only [start_pos, h3, hraw, h5, hk, Option.bind_eq_bind', Option.some_bind,
      Option.pure_def, Option.some.injEq]
    by_cases hpos : 0 < k
    · simp [hpos]
    · have hk0 : k = 0 := by omega
      subst hk0
      simp
  refine ⟨main, by decide, ?_⟩
  intro line s3 cigar raw h3 hraw h5 hk
  have hres := main line s3 cigar raw 0 h3 hraw h5 hk
  simpa using hres

theorem C4_clip_adjustment_witness :
    start_pos lclip = some ((100 : Int) - (5 : Int)) :=
  C4_clip_adjustment.1 lclip "100" "5S66M" 100 5 (by decide) (by decide)
    (by decide) (by decide)

/-- C5: the claimed counting never happens on the code. A record with bit 4
set (`lunmap`) or bit 256 set (`l256`) makes `bit_check` raise `NameError`
(the undefined global `COUNT` in the logging call at line 163), so the
record constructor aborts and the whole pass dies before the `UnMap`
counter at line 208 is ever reached: the record is neither counted nor is
any index or output produced, for quality mode, plain mode and umi mode
alike. (No such record is ever inserted into the Dedup Index — but only
because the run aborts, not because it is filtered and counted as the
claim and spec section 4.3 state.) -/
theorem C5_unmapped_crash :
    bit_check lunmap = none ∧
    bit_check l256 = none ∧
    sam_info cfgQ lunmap = none ∧
    inter_sam cfgQ [lq30, lunmap] = none ∧
    inter_sam cfgPlain [lq30, lunmap] = none ∧
    inter_sam cfgUmi [lq30, l256] = none := by
  exact ⟨by decide, by decide, by decide, by decide, by decide, by decide⟩

/-- C6: for every Dedup Index content on which the paired-end reconciler
completes without an exception, the emitted line list has even length and
consists of consecutive pairs (a, b) each passing the cross-reference
check: field 3 of a (0-based; the position column) equals field 7 of b
(the next-mate-position column). The scan itself advances by two on
acceptance and by one on rejection and drops a final unpaired entry, as
`pair_scan` makes explicit. -/
theorem C6_paired_output (pl : List (DedupKey × String × String)) (out : List String)
    (h : pair_write pl = some out) :
    Even out.length ∧
    ∃ ps, out = emitPairs ps ∧ ∀ p ∈ ps, pairCheck p.1 p.2 = some true := by
  unfold pair_write pair_scan at h
  obtain ⟨ps, hps, hchk⟩ :=
    pair_scan_go_spec (sortedVals pl).length (sortedVals pl) out h
  refine ⟨?_, ps, hps, hchk⟩
  rw [hps, emitPairs_length]
  exact ⟨ps.length, by omega⟩

theorem C6_paired_output_witness :
    Even ([pe1.1, pe2.1] : List String).length ∧
    ∃ ps, ([pe1.1, pe2.1] : List String) = emitPairs ps ∧
      ∀ p ∈ ps, pairCheck p.1 p.2 = some true :=
  C6_paired_output
    [(("AAGCTC", (500 : Int), "+", "chr1"), pe1.1, pe1.2),
     (("AAGCTC", (700 : Int), "+", "chr1"), pe2.1, pe2.2)]
    [pe1.1, pe2.1] (by decide)

/-- C7: a line that does not parse as an alignment record aborts the
streaming pass instead of being skipped: on the single-field line
`"badline"` the record constructor raises (modelled by `none`) and the
whole pass returns an exception, so the following well-formed line is
never processed. This contradicts the specified behaviour (reject the
line, continue the pass), exhibiting the code bug. -/
theorem C7_malformed_line_aborts :
    sam_info cfgPlain "badline\n" = none ∧
    inter_sam cfgPlain ["badline\n", lq30] = none := by
  exact ⟨by decide, by decide⟩

/-- C8: tag handling of the loop. For a usable parsed non-header record with
extracted tag t: with validation on, the barcode kept is t when t is in
the known list and the empty string otherwise; with validation off, the
barcode is t unchanged. A record whose barcode is empty is routed to the
unidentified-barcode counter and leaves the Dedup Index untouched, while a
record with a non-empty barcode is handled by the index logic with both
rejection counters unchanged. -/
theorem C8_tag_validation (cfg : Config) (st : RunState) (ln tag : String) (r : SamRec)
    (hh : isHeader ln = false)
    (hp : sam_info cfg ln = some r)
    (hu : r.usable = true)
    (ht : extractTag ln = some tag) :
    (cfg.umi = true → tag ∈ cfg.umiList → r.BC = tag) ∧
    (cfg.umi = true → tag ∉ cfg.umiList → r.BC = "") ∧
    (cfg.umi = false → r.BC = tag) ∧
    (r.BC = "" → inter_step cfg st ln =
      some { st with NR := st.NR + 1, badBc := st.badBc + 1 }) ∧
    (¬ r.BC = "" → ∃ st', inter_step cfg st ln = some st' ∧
      st'.badBc = st.badBc ∧ st'.UnMap = st.UnMap) := by
  have hbcv := (sam_info_elim cfg ln r hp).2.2.2.2.2
  obtain ⟨tag', ht', hval⟩ := barcode_get_elim cfg ln r.BC hbcv
  rw [ht] at ht'
  obtain rfl : tag = tag' := Option.some.inj ht'
  refine ⟨?_, ?_, ?_, ?_, ?_⟩
  · intro humi hmem
    rw [hval, humi, if_pos rfl, if_pos (List.elem_eq_true_of_mem hmem)]
  · intro humi hmem
    have hcont : cfg.umiList.contains tag = false := by
      cases hx : cfg.umiList.contains tag
      · rfl
      · exact absurd (List.mem_of_elem_eq_true hx) hmem
    rw [hval, humi, if_pos rfl, if_neg (by rw [hcont]; simp)]
  · intro humi
    rw [hval, humi, if_neg (by simp)]
  · intro hbc
    unfold inter_step
    rw [if_neg (by simp [hh])]
    simp only [hp]
    rw [if_neg (by simp [hu]), if_pos hbc]
  · intro hbc
    unfold inter_step
    rw [if_neg (by simp [hh])]
    simp only [hp]
    rw [if_neg (by simp [hu]), if_neg hbc]
    cases hl : alookup st.place (r.BC, r.start_pos, r.strand, r.contig) with
    | none =>
      exact ⟨_, rfl, rfl, rfl⟩
    | some v =>
      by_cases hq : cfg.qual = true
      · by_cases hcmp : pyStrLt v.2 r.qual_score = true
        · refine ⟨{ st with NR := st.NR + 1, place := aupdate st.place (r.BC, r.start_pos, r.strand, r.contig) r.line r.qual_score }, ?_, rfl, rfl⟩
          simp [hq, hcmp]
        · refine ⟨{ st with NR := st.NR + 1 }, ?_, rfl, rfl⟩
          simp [hq, hcmp]
      · refine ⟨{ st with NR := st.NR + 1 }, ?_, rfl, rfl⟩
        have hq' : cfg.qual = false := by simpa using hq
        simp [hq']

theorem C8_tag_validation_witness :
    (cfgUmi.umi = true → "AACCCG" ∈ cfgUmi.umiList →
      ("AACCCG" : String) = "AACCCG") ∧
    (cfgUmi.umi = true → "AACCCG" ∉ cfgUmi.umiList → ("AACCCG" : String) = "") ∧
    (cfgUmi.umi = false → ("AACCCG" : String) = "AACCCG") ∧
    (("AACCCG" : String) = "" → inter_step cfgUmi initState lAACCCG =
      some { initState with NR := initState.NR + 1, badBc := initState.badBc + 1 }) ∧
    (¬ ("AACCCG" : String) = "" → ∃ st', inter_step cfgUmi initState lAACCCG = some st' ∧
      st'.badBc = initState.badBc ∧ st'.UnMap = initState.UnMap) :=
  C8_tag_validation cfgUmi initState lAACCCG "AACCCG"
    ⟨lAACCCG, "chr1", 500, "30", "+", true, "AACCCG"⟩
    (by decide) (by decide) rfl (by decide)

/-- C9: mapping quality is stored and compared as the raw MAPQ string: the
comparison used on a key hit is Python string `<`, under which "30" is
smaller than "9", so in quality mode the record with MAPQ "9" replaces the
stream-earlier record with the numerically greater MAPQ "30". -/
theorem C9_lexicographic_mapq :
    pyStrLt "30" "9" = true ∧ (9 : Nat) < 30 ∧
    inter_sam cfgQ [lq30, lq9] =
      some ⟨2, 0, 0, [(("AAGCTC", (500 : Int), "+", "chr1"), lq9, "9")], []⟩ := by
  exact ⟨by decide, by decide, by decide⟩

/-- C10: the soft-clip check is not total: every CIGAR string of length two
whose second character is not `S` (such as "5M"), and every CIGAR string
of length one (such as "*"), makes `soft_check` raise an out-of-range
index access, and a record carrying such a CIGAR aborts the whole pass
(`inter_sam` returns the exception) instead of being excluded and
counted. -/
theorem C10_soft_check_crash :
    (∀ c0 c1 : Char, ¬ c1 = 'S' → soft_check (String.mk [c0, c1]) = none) ∧
    (∀ c : Char, soft_check (String.mk [c]) = none) ∧
    inter_sam cfgQ [l5M] = none ∧
    inter_sam cfgQ [lstar] = none := by
  refine ⟨?_, ?_, by decide, by decide⟩
  · intro c0 c1 hne
    simp [soft_check, hne]
  · intro c
    simp [soft_check]

theorem C10_soft_check_crash_witness :
    soft_check (String.mk ['5', 'M']) = none ∧
    soft_check (String.mk ['*']) = none :=
  ⟨C10_soft_check_crash.1 '5' 'M' (by decide), C10_soft_check_crash.2.1 '*'⟩

end Deduper
